import Mathlib

/-!
Verification of the member-data QA service (`main.py`) and the offline data
profiler (`analyze_data.py`) of the `aurora-take-home` repository.

The Python code is shallowly embedded: JSON values become the inductive
`JVal`, dictionaries become association lists (Python dicts have unique keys;
theorems that depend on this carry a `Nodup` hypothesis on the keys), and
code that can raise a Python exception returns `Except PyErr _`.  The regular
expressions used by the code are embedded as explicit character scanners that
follow `re.findall` semantics (leftmost, non-overlapping matches, greedy with
backtracking) for the concrete patterns appearing in the source.  Character
classes are modelled at ASCII precision, which covers every string the
program manipulates.
-/

/-- A JSON-like Python value: the payload type of the message records.
`num` models Python ints (the data set carries no floats). -/
inductive JVal where
  | str (s : String)
  | num (n : Int)
  | bool (b : Bool)
  | null
  | arr (xs : List JVal)
  | obj (fields : List (String × JVal))

/-- The Python exceptions the embedded code can raise:
`attributeError` for calling `.lower()`/`.items()` on a value that lacks it,
`typeError` for slicing a non-sliceable value. -/
inductive PyErr where
  | attributeError
  | typeError
deriving DecidableEq, Repr

/-- `dict.get(k, default)` on an association-list record. -/
def getD (r : List (String × JVal)) (k : String) (default : JVal) : JVal :=
  match r.find? (fun kv => kv.1 == k) with
  | some kv => kv.2
  | none => default

/-- Python truthiness (`if value:`) for the embedded value type. -/
def truthy : JVal → Bool
  | JVal.str s => !(s == "")
  | JVal.num n => !(n == 0)
  | JVal.bool b => b
  | JVal.null => false
  | JVal.arr xs => !xs.isEmpty
  | JVal.obj fs => !fs.isEmpty

/-- `[a-z]` of the source regexes (ASCII). -/
def isPyLower (c : Char) : Bool := 'a' ≤ c && c ≤ 'z'

/-- `[A-Z]` of the source regexes (ASCII). -/
def isPyUpper (c : Char) : Bool := 'A' ≤ c && c ≤ 'Z'

/-- `\d` of the source regexes (ASCII digits). -/
def isPyDigit (c : Char) : Bool := '0' ≤ c && c ≤ '9'

/-- `\s` of the source regexes, and the whitespace set of `str.strip` /
`str.split` (ASCII approximation of both). -/
def isPySpace (c : Char) : Bool :=
  c == ' ' || c == '\t' || c == '\n' || c == '\r' || c == '\x0b' || c == '\x0c'

/-- `\w`, the word characters deciding the `\b` boundaries of the source
regexes (ASCII approximation). -/
def isWordChar (c : Char) : Bool :=
  isPyUpper c || isPyLower c || isPyDigit c || c == '_'

/-- Python `str.lower()` (ASCII case mapping, as used by the data; written
over the character list so that it evaluates by kernel reduction). -/
def pyLower (s : String) : String := String.mk (s.data.map Char.toLower)

/-- `needle` occurs as a contiguous sublist starting at some position. -/
def containsFrom (needle : List Char) : List Char → Bool
  | [] => needle.isEmpty
  | c :: rest => needle.isPrefixOf (c :: rest) || containsFrom needle rest

/-- Python `needle in hay` on strings: substring containment. -/
def strContains (hay needle : String) : Bool := containsFrom needle.data hay.data

/-- Python `str.strip()` with no arguments: drop leading and trailing
whitespace. -/
def pyStrip (s : String) : String :=
  String.mk (((s.data.dropWhile isPySpace).reverse.dropWhile isPySpace).reverse)

/-- Number of words of Python `str.split()` with no arguments (split on
whitespace runs, empty pieces dropped); only the length is used by the code
(`len(n.split()) <= 3`). -/
def splitCount : Nat → List Char → Nat
  | 0, _ => 0
  | fuel+1, cs =>
    match cs.dropWhile isPySpace with
    | [] => 0
    | c :: rest => 1 + splitCount fuel ((c :: rest).dropWhile (fun d => !isPySpace d))

/-- Word count of `str.split()` on a string. -/
def pySplitCount (s : String) : Nat := splitCount s.data.length s.data

/-! ### Regex scanners

Each scanner embeds one concrete pattern of the source, with `re.findall`
semantics: scan positions left to right, at each position attempt a match
(greedy, with the backtracking the pattern allows), emit the capture group
and resume after the match, otherwise advance one character. -/

/-- Driver for the patterns without a `\b` anchor: try `matchAt` at every
position, emitting `(capture, rest-after-match)` pairs.  Every pattern
matched this way consumes at least one character, so `fuel := length` is
enough. -/
def scanAll (matchAt : List Char → Option (List Char × List Char)) :
    Nat → List Char → List String
  | 0, _ => []
  | _+1, [] => []
  | fuel+1, c :: rest =>
    match matchAt (c :: rest) with
    | some (tok, rest2) => String.mk tok :: scanAll matchAt fuel rest2
    | none => scanAll matchAt fuel rest

/-- `\d{n}` (exactly `n` digits): returns the digits and the rest. -/
def takeExactDigits : Nat → List Char → Option (List Char × List Char)
  | 0, cs => some ([], cs)
  | n+1, c :: rest =>
    if isPyDigit c then
      (takeExactDigits n rest).map (fun dr => (c :: dr.1, dr.2))
    else none
  | _+1, [] => none

/-- One attempt of `\d{4}-\d{2}-\d{2}` (the ISO date pattern). -/
def isoAt (cs : List Char) : Option (List Char × List Char) := do
  let (d1, r1) ← takeExactDigits 4 cs
  match r1 with
  | '-' :: r2 => do
    let (d2, r3) ← takeExactDigits 2 r2
    match r3 with
    | '-' :: r4 => do
      let (d3, r5) ← takeExactDigits 2 r4
      pure (d1 ++ '-' :: d2 ++ '-' :: d3, r5)
    | _ => none
  | _ => none

/-- `\d{1,2}` with greedy backtracking: candidate splits, longest first. -/
def digits12 : List Char → List (List Char × List Char)
  | c :: d :: rest =>
    if isPyDigit c then
      if isPyDigit d then [([c, d], rest), ([c], d :: rest)] else [([c], d :: rest)]
    else []
  | [c] => if isPyDigit c then [([c], [])] else []
  | [] => []

/-- One attempt of `\d{1,2}/\d{1,2}/\d{4}` (the slash date pattern). -/
def slashAt (cs : List Char) : Option (List Char × List Char) :=
  (digits12 cs).findSome? fun d1 =>
    match d1.2 with
    | '/' :: r2 =>
      (digits12 r2).findSome? fun d2 =>
        match d2.2 with
        | '/' :: r4 =>
          (takeExactDigits 4 r4).map fun d3 =>
            (d1.1 ++ '/' :: d2.1 ++ '/' :: d3.1, d3.2)
        | _ => none
    | _ => none

/-- Case-insensitive literal prefix match (the source compiles the date
patterns with `re.IGNORECASE`): returns the original-case matched prefix and
the rest. -/
def ciPrefix : List Char → List Char → Option (List Char × List Char)
  | [], cs => some ([], cs)
  | _ :: _, [] => none
  | p :: ps, c :: cs =>
    if p == c.toLower then
      (ciPrefix ps cs).map (fun orig => (c :: orig.1, orig.2))
    else none

/-- The month alternation of the source, in source order. -/
def monthNames : List String :=
  ["january", "february", "march", "april", "may", "june", "july",
   "august", "september", "october", "november", "december"]

/-- One attempt of `(month)\s+\d{1,2}` (IGNORECASE).  `re.findall` returns
only the capture group, the month as it appeared; the scanner resumes after
the whole match. -/
def monthDayAt (cs : List Char) : Option (List Char × List Char) :=
  monthNames.findSome? fun m =>
    (ciPrefix m.data cs).bind fun orig =>
      let sp := orig.2.takeWhile isPySpace
      if sp.isEmpty then none
      else
        match orig.2.dropWhile isPySpace with
        | a :: b :: r3 =>
          if isPyDigit a then some (orig.1, if isPyDigit b then r3 else b :: r3)
          else none
        | [a] => if isPyDigit a then some (orig.1, ([] : List Char)) else none
        | [] => none

/-- The weekday alternation of the source, in source order. -/
def weekdayNames : List String :=
  ["monday", "tuesday", "wednesday", "thursday", "friday", "saturday", "sunday"]

/-- One attempt of `(monday|...|sunday)` (IGNORECASE): a bare alternation,
matching also inside longer words. -/
def weekdayAt (cs : List Char) : Option (List Char × List Char) :=
  weekdayNames.findSome? fun w => ciPrefix w.data cs

/-- Second alternation of the relative-date pattern, in source order. -/
def relativeWords : List String :=
  ["week", "friday", "monday", "tuesday", "wednesday", "thursday", "saturday", "sunday"]

/-- One attempt of `(this|next)\s+(week|...)` (IGNORECASE).  The pattern has
two capture groups, so `re.findall` yields 2-tuples; interpolated into the
answer f-string they render as Python tuples, which is how the capture is
represented here. -/
def relativeAt (cs : List Char) : Option (List Char × List Char) :=
  (["this", "next"]).findSome? fun p =>
    (ciPrefix p.data cs).bind fun o1 =>
      let sp := o1.2.takeWhile isPySpace
      if sp.isEmpty then none
      else
        relativeWords.findSome? fun w =>
          (ciPrefix w.data (o1.2.dropWhile isPySpace)).map fun o2 =>
            ("('".data ++ o1.1 ++ "', '".data ++ o2.1 ++ "')".data, o2.2)

/-- `re.findall(r'\d{4}-\d{2}-\d{2}', s)`. -/
def findIsoDates (s : String) : List String := scanAll isoAt s.data.length s.data

/-- `re.findall(r'\d{1,2}/\d{1,2}/\d{4}', s)`. -/
def findSlashDates (s : String) : List String := scanAll slashAt s.data.length s.data

/-- `re.findall(r'(january|...|december)\s+\d{1,2}', s, re.IGNORECASE)`. -/
def findMonthDays (s : String) : List String := scanAll monthDayAt s.data.length s.data

/-- `re.findall(r'(monday|...|sunday)', s, re.IGNORECASE)`. -/
def findWeekdays (s : String) : List String := scanAll weekdayAt s.data.length s.data

/-- `re.findall(r'(this|next)\s+(week|...)', s, re.IGNORECASE)`. -/
def findRelativeDates (s : String) : List String := scanAll relativeAt s.data.length s.data

/-- The date extraction of the trip branch: the five pattern families are
run in source order and their matches concatenated (`dates.extend(...)`). -/
def extractDates (s : String) : List String :=
  findIsoDates s ++ findSlashDates s ++ findMonthDays s ++ findWeekdays s ++
    findRelativeDates s

/-- `\b` holds between a word character and the position at `cs` when the
head of `cs` is not a word character (or `cs` is the end of the string). -/
def atBoundary : List Char → Bool
  | [] => true
  | c :: _ => !isWordChar c

/-- The optional tail `(?:\s+[A-Z][a-z]+)?` of the name pattern, together
with the final `\b` check; shorter runs than the maximal ones always place a
word character (or a space before a non-uppercase character) next and fail,
so only maximal runs are attempted. -/
def nameOptPart (cs : List Char) : Option (List Char × List Char) :=
  let sp := cs.takeWhile isPySpace
  if sp.isEmpty then none
  else
    match cs.dropWhile isPySpace with
    | c :: r2 =>
      if isPyUpper c then
        let low := r2.takeWhile isPyLower
        if low.isEmpty then none
        else
          let r3 := r2.dropWhile isPyLower
          if atBoundary r3 then some (sp ++ c :: low, r3) else none
      else none
    | [] => none

/-- One attempt of `\b([A-Z][a-z]+(?:\s+[A-Z][a-z]+)?)\b` at a position whose
`\b` precondition the caller has checked: greedy, trying the two-word form
first and backtracking to the one-word form. -/
def nameToken : List Char → Option (List Char × List Char)
  | c :: rest =>
    if isPyUpper c then
      let low := rest.takeWhile isPyLower
      if low.isEmpty then none
      else
        let rest1 := rest.dropWhile isPyLower
        match nameOptPart rest1 with
        | some er => some (c :: low ++ er.1, er.2)
        | none => if atBoundary rest1 then some (c :: low, rest1) else none
    else none
  | [] => none

/-- Scanner for the name pattern: tracks whether the previous character was a
word character, so that the leading `\b` can be decided. -/
def nameScan : Nat → Bool → List Char → List String
  | 0, _, _ => []
  | _+1, _, [] => []
  | fuel+1, prevWord, c :: rest =>
    if !prevWord && isPyUpper c then
      match nameToken (c :: rest) with
      | some tr => String.mk tr.1 :: nameScan fuel true tr.2
      | none => nameScan fuel (isWordChar c) rest
    else nameScan fuel (isWordChar c) rest

/-- `re.findall(r'\b([A-Z][a-z]+(?:\s+[A-Z][a-z]+)?)\b', question)`. -/
def findNames (question : String) : List String :=
  nameScan question.data.length false question.data

/-- Scanner for `\b(\d+)\s*car` over the lower-cased message: a maximal digit
run after a word boundary, optional whitespace, then the literal `car`; the
capture is the digit run.  Shorter digit or space runs than the maximal ones
place a digit or a space where `c` is required, so only maximal runs can
match. -/
def numCarScan : Nat → Bool → List Char → List String
  | 0, _, _ => []
  | _+1, _, [] => []
  | fuel+1, prevWord, c :: rest =>
    if !prevWord && isPyDigit c then
      let ds := rest.takeWhile isPyDigit
      let r2 := (rest.dropWhile isPyDigit).dropWhile isPySpace
      if "car".data.isPrefixOf r2 then
        String.mk (c :: ds) :: numCarScan fuel true (r2.drop 3)
      else numCarScan fuel (isWordChar c) rest
    else numCarScan fuel (isWordChar c) rest

/-- `re.findall(r'\b(\d+)\s*car', msg_lower)`. -/
def findNumCar (s : String) : List String := numCarScan s.data.length false s.data

/-- `int(...)` on a capture of `(\d+)`. -/
def digitsToNat (s : String) : Nat :=
  s.data.foldl (fun acc c => acc * 10 + (c.toNat - '0'.toNat)) 0

/-- `[A-Z][a-z]+`: one capitalized word. -/
def capWordAt : List Char → Option (List Char × List Char)
  | c :: rest =>
    if isPyUpper c then
      let low := rest.takeWhile isPyLower
      if low.isEmpty then none else some (c :: low, rest.dropWhile isPyLower)
    else none
  | [] => none

/-- The star `(?:\s+[A-Z][a-z]+)*` followed by `\s+` and a literal suffix,
with greedy backtracking: extend the phrase while possible, and when the
deeper attempt fails fall back to ending the phrase here. -/
def phraseThen (suffix : List Char) : Nat → List Char → List Char →
    Option (List Char × List Char)
  | 0, _, _ => none
  | fuel+1, acc, r =>
    let sp := r.takeWhile isPySpace
    let r1 := r.dropWhile isPySpace
    let ext :=
      if sp.isEmpty then none
      else
        (capWordAt r1).bind fun wr =>
          phraseThen suffix fuel (acc ++ sp ++ wr.1) wr.2
    match ext with
    | some res => some res
    | none =>
      if !sp.isEmpty && suffix.isPrefixOf r1 then
        some (acc, r1.drop suffix.length)
      else none

/-- One attempt of `([A-Z][a-z]+(?:\s+[A-Z][a-z]+)*)\s+restaurant`
(case-sensitive, as in the source). -/
def capRestaurantAt (cs : List Char) : Option (List Char × List Char) :=
  (capWordAt cs).bind fun wr => phraseThen "restaurant".data wr.2.length wr.1 wr.2

/-- `re.findall(r'([A-Z][a-z]+(?:\s+[A-Z][a-z]+)*)\s+restaurant', s)`. -/
def findCapRestaurant (s : String) : List String :=
  scanAll capRestaurantAt s.data.length s.data

/-- One attempt of `"([^"]+)"`: an opening quote, a maximal nonempty run of
non-quote characters, and a closing quote. -/
def quotedAt : List Char → Option (List Char × List Char)
  | '"' :: rest =>
    let inner := rest.takeWhile (fun c => c != '"')
    if inner.isEmpty then none
    else
      match rest.dropWhile (fun c => c != '"') with
      | '"' :: r2 => some (inner, r2)
      | _ => none
  | _ => none

/-- `re.findall(r'"([^"]+)"', s)`. -/
def findQuoted (s : String) : List String := scanAll quotedAt s.data.length s.data

/-- Maximal greedy extension of `(?:\s+[A-Z][a-z]+)*` with no trailing
requirement (the catch-all phrase pattern has no anchor after the star). -/
def capPhraseExtend : Nat → List Char → List Char → List Char × List Char
  | 0, acc, r => (acc, r)
  | fuel+1, acc, r =>
    let sp := r.takeWhile isPySpace
    if sp.isEmpty then (acc, r)
    else
      match capWordAt (r.dropWhile isPySpace) with
      | some wr => capPhraseExtend fuel (acc ++ sp ++ wr.1) wr.2
      | none => (acc, r)

/-- One attempt of the catch-all `([A-Z][a-z]+(?:\s+[A-Z][a-z]+)*)`: no `\b`
anchors, so it also matches inside longer words. -/
def capPhraseAt (cs : List Char) : Option (List Char × List Char) :=
  (capWordAt cs).map fun wr => capPhraseExtend wr.2.length wr.1 wr.2

/-- `re.findall(r'([A-Z][a-z]+(?:\s+[A-Z][a-z]+)*)', s)`. -/
def findCapPhrases (s : String) : List String :=
  scanAll capPhraseAt s.data.length s.data

mutual

/-- Python `repr` of an embedded value (ASCII contents; used through
`pyStr` only to count distinct member names). -/
def pyRepr : JVal → String
  | JVal.str s => "'" ++ s ++ "'"
  | JVal.num n => toString n
  | JVal.bool b => if b then "True" else "False"
  | JVal.null => "None"
  | JVal.arr xs => "[" ++ pyReprArr xs ++ "]"
  | JVal.obj fs => "\x7b" ++ pyReprObj fs ++ "\x7d"

/-- `repr` of a list's elements, comma-separated. -/
def pyReprArr : List JVal → String
  | [] => ""
  | [x] => pyRepr x
  | x :: y :: rest => pyRepr x ++ ", " ++ pyReprArr (y :: rest)

/-- `repr` of a dict's items, comma-separated. -/
def pyReprObj : List (String × JVal) → String
  | [] => ""
  | [kv] => "'" ++ kv.1 ++ "': " ++ pyRepr kv.2
  | kv :: p :: rest => "'" ++ kv.1 ++ "': " ++ pyRepr kv.2 ++ ", " ++ pyReprObj (p :: rest)

end

/-- Python `str(v)`. -/
def pyStr : JVal → String
  | JVal.str s => s
  | v => pyRepr v

/-! ### `answer_question_simple` (main.py, lines 77-185) -/

/-- The stoplist of line 86 (a Python `set`, used only for membership). -/
def commonWords : List String :=
  ["When", "What", "How", "Where", "Who", "Why", "The", "Is", "Are", "Does",
   "Have", "Has", "Her", "His", "Their", "Planning", "Many", "Favorite"]

/-- Lines 83-87: candidate names of the question, stoplist words removed. -/
def extractNames (question : String) : List String :=
  (findNames question).filter (fun n => !commonWords.contains n)

/-- Lines 92-99: the relevance filter when at least one candidate name
exists.  `msg.get('user_name', '').lower()` and
`msg.get('message', '').lower()` raise `AttributeError` when the field holds
a non-string value; non-mapping entries are skipped. -/
def relevantByNames (names : List String) : List JVal → Except PyErr (List JVal)
  | [] => Except.ok []
  | JVal.obj r :: rest =>
    match getD r "user_name" (JVal.str ""), getD r "message" (JVal.str "") with
    | JVal.str u, JVal.str t =>
      let keep := names.any fun n =>
        strContains (pyLower u) (pyLower n) || strContains (pyLower t) (pyLower n)
      (relevantByNames names rest).map fun tail =>
        if keep then JVal.obj r :: tail else tail
    | _, _ => Except.error PyErr.attributeError
  | _ :: rest => relevantByNames names rest

/-- `isinstance(msg, dict)`. -/
def isDict : JVal → Bool
  | JVal.obj _ => true
  | _ => false

/-- Lines 106-131, the trip/London branch: the first relevant message whose
lower-cased body contains `london` decides the answer: date extraction, then
the timestamp fallback (`timestamp[:10]` slices strings and lists and raises
`TypeError` on other truthy values), then a generic sentence; if no message
mentions London, a couldn't-find sentence. -/
def tripLoop (nd : String) : List JVal → Except PyErr String
  | [] =>
    Except.ok ("I couldn't find information about " ++ nd ++
      "'s trip to London in the data.")
  | JVal.obj r :: rest =>
    match getD r "message" (JVal.str "") with
    | JVal.str s =>
      if strContains (pyLower s) "london" then
        match extractDates s with
        | d :: _ =>
          Except.ok (nd ++ " is planning a trip to London on " ++ d ++ ".")
        | [] =>
          let ts := getD r "timestamp" (JVal.str "")
          if truthy ts then
            match ts with
            | JVal.str t =>
              Except.ok (nd ++ " has a trip to London mentioned. Message timestamp: " ++
                String.mk (t.data.take 10) ++ ".")
            | JVal.arr xs =>
              Except.ok (nd ++ " has a trip to London mentioned. Message timestamp: " ++
                pyRepr (JVal.arr (xs.take 10)) ++ ".")
            | _ => Except.error PyErr.typeError
          else
            Except.ok (nd ++ " has a trip to London mentioned in their messages.")
      else tripLoop nd rest
    | _ => Except.error PyErr.attributeError
  | _ :: rest => tripLoop nd rest

/-- Lines 134-149, the counting loop of the car branch: a message whose
lower-cased body contains the substring `car` either sets the count to the
maximum of itself and the first number captured before `car`, or, with no
number, increments the count by one.  (`car_mentions` is collected by the
source but never used for the answer.) -/
def carLoop (count : Nat) : List JVal → Except PyErr Nat
  | [] => Except.ok count
  | JVal.obj r :: rest =>
    match getD r "message" (JVal.str "") with
    | JVal.str s =>
      if strContains (pyLower s) "car" then
        match findNumCar (pyLower s) with
        | n :: _ => carLoop (max count (digitsToNat n)) rest
        | [] => carLoop (count + 1) rest
      else carLoop count rest
    | _ => Except.error PyErr.attributeError
  | _ :: rest => carLoop count rest

/-- Lines 156-174, the collection loop of the restaurant branch: for each
message containing `restaurant`, the three heuristics (capitalized phrase
before `restaurant`, quoted names containing `restaurant`, and the catch-all
capitalized phrases of at most three words) are appended in order. -/
def restaurantLoop (acc : List String) : List JVal → Except PyErr (List String)
  | [] => Except.ok acc
  | JVal.obj r :: rest =>
    match getD r "message" (JVal.str "") with
    | JVal.str s =>
      if strContains (pyLower s) "restaurant" then
        restaurantLoop
          (acc ++ findCapRestaurant s ++
            (findQuoted s).filter (fun q => strContains (pyLower q) "restaurant") ++
            (findCapPhrases s).filter (fun n => pySplitCount n ≤ 3)) rest
      else restaurantLoop acc rest
    | _ => Except.error PyErr.attributeError
  | _ :: rest => restaurantLoop acc rest

/-- `answer_question_simple` (main.py lines 77-185).  List-valued `set`
operations of the source (`list(set(restaurants))[:5]`) are modelled with
`dedup`; Python's set iteration order is unspecified, and no property proved
here depends on it. -/
def answer_question_simple (question : String) (messages : List JVal) :
    Except PyErr String :=
  let question_lower := pyLower question
  let names := extractNames question
  let relevantE :=
    if names.isEmpty then Except.ok (messages.filter isDict)
    else relevantByNames names messages
  match relevantE with
  | Except.error e => Except.error e
  | Except.ok relevant_messages =>
    let name_display := names.headD "the member"
    if strContains question_lower "trip" || strContains question_lower "london" then
      tripLoop name_display relevant_messages
    else if strContains question_lower "car" || strContains question_lower "cars" then
      match carLoop 0 relevant_messages with
      | Except.error e => Except.error e
      | Except.ok car_count =>
        if car_count > 0 then
          Except.ok (name_display ++ " has " ++ toString car_count ++
            " car(s) mentioned in the data.")
        else
          Except.ok ("I couldn't find information about " ++ name_display ++
            "'s cars in the data.")
    else if strContains question_lower "restaurant" ||
        strContains question_lower "favorite" then
      match restaurantLoop [] relevant_messages with
      | Except.error e => Except.error e
      | Except.ok restaurants =>
        if !restaurants.isEmpty then
          Except.ok (name_display ++ "'s favorite restaurants include: " ++
            String.intercalate ", " (restaurants.dedup.take 5) ++ ".")
        else
          Except.ok ("I couldn't find specific restaurant information for " ++
            name_display ++ " in the data.")
    else if !relevant_messages.isEmpty then
      Except.ok ("I found " ++ toString relevant_messages.length ++
        " message(s) related to " ++ name_display ++
        ", but couldn't extract a specific answer.")
    else Except.ok "I don't have enough information to answer that question."

/-! ### The `/ask` endpoint (main.py, lines 216-234)

The handler first validates the question, then fetches the message list
(which can fail with a 503), then answers.  The fetch is a network effect;
it enters the model as an `Except`-valued argument, so that properties can be
stated over every fetch outcome. -/

/-- Outcome of a `POST /ask` call: the 400 empty-question rejection, the 503
fetch failure, the 500 wrapper around an exception raised while answering,
or a 200 answer. -/
inductive AskResult where
  | emptyQuestion
  | fetchFailed (detail : String)
  | internalError
  | answer (a : String)
deriving DecidableEq, Repr

/-- `ask_question` (main.py lines 216-234): `not request.question or not
request.question.strip()` rejects with a 400 before the fetch is attempted;
an empty fetched list short-circuits to a fixed answer; an exception from
`answer_question` becomes a 500. -/
def ask_question (question : String) (fetch : Except String (List JVal)) :
    AskResult :=
  if question == "" || pyStrip question == "" then AskResult.emptyQuestion
  else
    match fetch with
    | Except.error e => AskResult.fetchFailed e
    | Except.ok messages =>
      if messages.isEmpty then
        AskResult.answer "No member data available at the moment."
      else
        match answer_question_simple question messages with
        | Except.ok a => AskResult.answer a
        | Except.error _ => AskResult.internalError

/-! ### `analyze_data` (analyze_data.py, lines 32-120)

The findings object is embedded structurally: the report strings the source
builds with f-strings (some of which format floats) are represented by the
constructors below carrying the same data.  Which entries appear, and in what
multiplicity, is exactly the source's logic; iteration over Python sets
(whose order is unspecified) is modelled in insertion order, and no theorem
depends on it. -/

/-- `type(v).__name__` for the embedded values. -/
def pyTypeName : JVal → String
  | JVal.str _ => "str"
  | JVal.num _ => "int"
  | JVal.bool _ => "bool"
  | JVal.null => "NoneType"
  | JVal.arr _ => "list"
  | JVal.obj _ => "dict"

/-- `defaultdict(int)` increment, insertion-ordered like a Python dict. -/
def bump : List (String × Nat) → String → List (String × Nat)
  | [], k => [(k, 1)]
  | kv :: rest, k =>
    if kv.1 == k then (kv.1, kv.2 + 1) :: rest else kv :: bump rest k

/-- `defaultdict(set)` insertion (`field_types[key].add(name)`); the set is
modelled as an insertion-ordered duplicate-free list. -/
def addType : List (String × List String) → String → String → List (String × List String)
  | [], k, t => [(k, [t])]
  | kv :: rest, k, t =>
    if kv.1 == k then
      (kv.1, if kv.2.contains t then kv.2 else kv.2 ++ [t]) :: rest
    else kv :: addType rest k t

/-- `set.add` on a set of strings, insertion-ordered. -/
def addSet (l : List String) (s : String) : List String :=
  if l.contains s then l else l ++ [s]

/-- `key in msg` (dict key membership). -/
def containsKey (fs : List (String × JVal)) (k : String) : Bool :=
  fs.any (fun kv => kv.1 == k)

/-- An entry of `findings["anomalies"]`: the non-mapping record report of
line 54 (carrying the index and `type(msg)`), or the duplicate report of
line 118. -/
inductive Anomaly where
  | notADict (index : Nat) (typeName : String)
  | duplicates (count : Nat)
deriving DecidableEq, Repr

/-- An entry of `findings["inconsistencies"]`: lines 88, 97 and 110.  The
low-presence entry carries the counts from which the source formats its
percentage. -/
inductive Inconsistency where
  | typeVariation (field : String) (types : List String)
  | lowPresence (field : String) (count total : Nat)
  | emptyFields (numFields : Nat)
deriving DecidableEq, Repr

/-- `findings["statistics"]` as populated at lines 76-82, with the
`empty_field_counts` key optionally added at line 109. -/
structure Statistics where
  total_fields : Nat
  field_frequency : List (String × Nat)
  field_type_variations : List (String × List String)
  unique_members_found : Nat
  date_entries : Nat
  empty_field_counts : Option (List (String × Nat))
deriving DecidableEq, Repr

/-- The findings object.  `statistics` is `none` exactly in the empty-input
early return, where the source leaves it `{}`. -/
structure Findings where
  total_messages : Nat
  anomalies : List Anomaly
  statistics : Option Statistics
  inconsistencies : List Inconsistency
deriving DecidableEq, Repr

/-- State of the first analysis loop (lines 44-74). -/
structure ScanState where
  anomalies : List Anomaly
  fieldCounts : List (String × Nat)
  fieldTypes : List (String × List String)
  memberNames : List String
  dateCount : Nat
deriving Repr

/-- Lines 57-74 for one mapping record: field presence and types, member
names (via Python `str`), and truthy date/time field count.  (The lowered
`json.dumps` at line 63 is assigned but never used and is omitted.) -/
def scanObj (st : ScanState) (fs : List (String × JVal)) : ScanState :=
  let fc := fs.foldl (fun acc kv => bump acc kv.1) st.fieldCounts
  let ft := fs.foldl (fun acc kv => addType acc kv.1 (pyTypeName kv.2)) st.fieldTypes
  let mn :=
    if containsKey fs "name" then addSet st.memberNames (pyStr (getD fs "name" JVal.null))
    else st.memberNames
  let mn2 :=
    if containsKey fs "member" then addSet mn (pyStr (getD fs "member" JVal.null))
    else mn
  let dc := fs.foldl
    (fun acc kv =>
      if strContains (pyLower kv.1) "date" || strContains (pyLower kv.1) "time" then
        if truthy kv.2 then acc + 1 else acc
      else acc)
    st.dateCount
  { st with fieldCounts := fc, fieldTypes := ft, memberNames := mn2, dateCount := dc }

/-- The first analysis loop (lines 51-74): non-mapping entries are recorded
as anomalies and skipped (`continue`), mapping entries are scanned. -/
def scanMsgs (i : Nat) (st : ScanState) : List JVal → ScanState
  | [] => st
  | JVal.obj fs :: rest => scanMsgs (i + 1) (scanObj st fs) rest
  | v :: rest =>
    scanMsgs (i + 1)
      { st with anomalies := st.anomalies ++ [Anomaly.notADict i (pyTypeName v)] } rest

/-- Line 96: `presence_rate = field_counts[field] / len(messages)` compared
with `< 0.5`.  The comparison is decided by the equivalent integer test
`2 * count < total` so that it evaluates by kernel reduction; the theorem
for the presence-threshold claim proves it equal to the exact rational
comparison `count / total < 1/2` for every positive total (the only totals
the source can supply, thanks to its empty-input early return).  The
source's float division agrees with the exact comparison for any feasible
count (they can only differ when rounding crosses `0.5`, which needs totals
beyond `2^52`). -/
def presenceFlagged (count total : Nat) : Bool :=
  decide (2 * count < total)

/-- Line 105: `value is None or value == "" or (isinstance(value, list) and
len(value) == 0)`. -/
def isEmptyVal : JVal → Bool
  | JVal.null => true
  | JVal.str s => s == ""
  | JVal.arr xs => xs.isEmpty
  | _ => false

/-- The empty-value loop (lines 102-106).  Unlike the first loop, it calls
`msg.items()` without an `isinstance` guard, so a non-mapping entry raises
`AttributeError`. -/
def emptyScan : List JVal → List (String × Nat) → Except PyErr (List (String × Nat))
  | [], acc => Except.ok acc
  | JVal.obj fs :: rest, acc =>
    emptyScan rest (fs.foldl (fun a kv => if isEmptyVal kv.2 then bump a kv.1 else a) acc)
  | _ :: _, _ => Except.error PyErr.attributeError

/-- The string-escaping of `json.dumps` for the characters the data uses
(ASCII; quote, backslash and common control characters). -/
def jsonEscapeChar (c : Char) : List Char :=
  if c == '"' then ['\\', '"']
  else if c == '\\' then ['\\', '\\']
  else if c == '\n' then ['\\', 'n']
  else if c == '\t' then ['\\', 't']
  else if c == '\r' then ['\\', 'r']
  else [c]

/-- Escape a string as `json.dumps` renders string contents. -/
def jsonEscape (s : String) : String := String.mk (s.data.map jsonEscapeChar).flatten

/-- Lexicographic code-point order on strings, the order Python sorts
string keys by. -/
def lexLe : List Char → List Char → Bool
  | [], _ => true
  | _ :: _, [] => false
  | a :: as, b :: bs => if a == b then lexLe as bs else decide (a.toNat < b.toNat)

/-- Key order used by `sort_keys=True`: compare the (already dumped) field
pairs by key. -/
def keyLe (a b : String × String) : Bool := lexLe a.1.data b.1.data

/-- Insert into a key-sorted list of dumped fields, before the first pair
with a key not smaller than the inserted one (a stable insertion, like
Python's sort; real dicts never repeat a key). -/
def insertSorted (kv : String × String) :
    List (String × String) → List (String × String)
  | [] => [kv]
  | p :: rest => if keyLe kv p then kv :: p :: rest else p :: insertSorted kv rest

/-- The key sort of `sort_keys=True` (an insertion sort, chosen over
`List.mergeSort` so that serializations evaluate by kernel reduction). -/
def sortFields : List (String × String) → List (String × String)
  | [] => []
  | kv :: rest => insertSorted kv (sortFields rest)

/-- Render sorted, already-dumped fields with `json.dumps`'s default
separators. -/
def renderFields : List (String × String) → String
  | [] => ""
  | [kv] => "\"" ++ jsonEscape kv.1 ++ "\": " ++ kv.2
  | kv :: p :: rest =>
    "\"" ++ jsonEscape kv.1 ++ "\": " ++ kv.2 ++ ", " ++ renderFields (p :: rest)

mutual

/-- `json.dumps(v, sort_keys=True)` (line 115): object keys are sorted at
every level. -/
def dumps : JVal → String
  | JVal.str s => "\"" ++ jsonEscape s ++ "\""
  | JVal.num n => toString n
  | JVal.bool b => if b then "true" else "false"
  | JVal.null => "null"
  | JVal.arr xs => "[" ++ dumpsArr xs ++ "]"
  | JVal.obj fs => "\x7b" ++ renderFields (sortFields (dumpsFields fs)) ++ "\x7d"

/-- Dump a list's elements, comma-separated. -/
def dumpsArr : List JVal → String
  | [] => ""
  | [x] => dumps x
  | x :: y :: rest => dumps x ++ ", " ++ dumpsArr (y :: rest)

/-- Dump each field's value, keeping the key for sorting. -/
def dumpsFields : List (String × JVal) → List (String × String)
  | [] => []
  | kv :: rest => (kv.1, dumps kv.2) :: dumpsFields rest

end

/-- Lines 115-116: `len(message_strings) - len(set(message_strings))` over
the canonical serializations. -/
def duplicateCount (messages : List JVal) : Nat :=
  messages.length - (messages.map dumps).dedup.length

/-- `analyze_data` (analyze_data.py lines 32-120).  The early return for an
empty input keeps `statistics = {}` (`none` here).  Otherwise: the first
scan loop, the statistics block, type- and presence-inconsistencies, the
empty-value loop (which can raise), and duplicate counting. -/
def analyze_data (messages : List JVal) : Except PyErr Findings :=
  if messages.isEmpty then
    Except.ok { total_messages := 0, anomalies := [], statistics := none,
                inconsistencies := [] }
  else
    let st := scanMsgs 0 ⟨[], [], [], [], 0⟩ messages
    let stats : Statistics :=
      { total_fields := st.fieldCounts.length
        field_frequency := st.fieldCounts
        field_type_variations := st.fieldTypes
        unique_members_found := st.memberNames.length
        date_entries := st.dateCount
        empty_field_counts := none }
    let incons1 := st.fieldTypes.filterMap fun kv =>
      if kv.2.length > 1 then some (Inconsistency.typeVariation kv.1 kv.2) else none
    let incons2 := st.fieldCounts.filterMap fun kv =>
      if presenceFlagged kv.2 messages.length then
        some (Inconsistency.lowPresence kv.1 kv.2 messages.length)
      else none
    match emptyScan messages [] with
    | Except.error e => Except.error e
    | Except.ok empties =>
      let stats2 :=
        if empties.isEmpty then stats
        else { stats with empty_field_counts := some empties }
      let incons3 :=
        if empties.isEmpty then ([] : List Inconsistency)
        else [Inconsistency.emptyFields empties.length]
      let dups := duplicateCount messages
      let anoms := st.anomalies ++
        (if dups > 0 then [Anomaly.duplicates dups] else [])
      Except.ok { total_messages := messages.length, anomalies := anoms,
                  statistics := some stats2,
                  inconsistencies := incons1 ++ incons2 ++ incons3 }

/-! ### Predicates and fixtures used by the statements below -/

/-- Every field of the record holds a string value. -/
def strFields (r : List (String × JVal)) : Bool :=
  r.all fun kv => match kv.2 with | JVal.str _ => true | _ => false

/-- A message entry is either not a mapping (which the QA path skips) or a
mapping whose present fields are all string-valued. -/
def wellFormed : JVal → Bool
  | JVal.obj r => strFields r
  | _ => true

/-- A message that the trip loop passes over without answering or raising:
not a mapping, or a mapping whose `message` field is a string that does not
mention `london`. -/
def notLondonMsg : JVal → Bool
  | JVal.obj r =>
    match getD r "message" (JVal.str "") with
    | JVal.str s => !strContains (pyLower s) "london"
    | _ => false
  | _ => true

/-- Whether `analyze_data` completed and flagged `field` with a low-presence
inconsistency. -/
def lowPresenceFlaggedIn (messages : List JVal) (field : String) : Bool :=
  match analyze_data messages with
  | Except.ok f =>
    f.inconsistencies.any fun i =>
      match i with
      | Inconsistency.lowPresence g _ _ => g == field
      | _ => false
  | Except.error _ => false

/-- Five records with the field `extra` present in exactly two (a 40%
presence rate). -/
def msgsForty : List JVal :=
  [JVal.obj [("user_name", JVal.str "A"), ("extra", JVal.str "y")],
   JVal.obj [("user_name", JVal.str "B"), ("extra", JVal.str "y")],
   JVal.obj [("user_name", JVal.str "C")],
   JVal.obj [("user_name", JVal.str "D")],
   JVal.obj [("user_name", JVal.str "E")]]

/-- Five records with the field `extra` present in exactly three (a 60%
presence rate). -/
def msgsSixty : List JVal :=
  [JVal.obj [("user_name", JVal.str "A"), ("extra", JVal.str "y")],
   JVal.obj [("user_name", JVal.str "B"), ("extra", JVal.str "y")],
   JVal.obj [("user_name", JVal.str "C"), ("extra", JVal.str "y")],
   JVal.obj [("user_name", JVal.str "D")],
   JVal.obj [("user_name", JVal.str "E")]]

/-! ### Helper lemmas -/

theorem isPrefixOf_of_prefix {l1 l2 : List Char} (h : l1 <+: l2) :
    l1.isPrefixOf l2 = true := by
  rw [ List.isPrefixOf_iff_prefix]
  exact h

theorem containsFrom_of_infix {needle hay : List Char} (h : needle <:+: hay) :
    containsFrom needle hay = true := by
  induction hay with
  | nil =>
    rw [List.infix_nil] at h
    subst h
    rfl
  | cons c rest ih =>
    obtain ⟨s, t, hst⟩ := h
    cases s with
    | nil =>
      have hp : needle <+: c :: rest := ⟨t, by simpa using hst⟩
      simp [containsFrom, isPrefixOf_of_prefix hp]
    | cons s0 s' =>
      have hc : s0 = c := by simpa using congrArg (List.headD · ' ') hst
      have hrest : s' ++ needle ++ t = rest := by
        simpa [hc] using congrArg List.tail hst
      have : needle <:+: rest := ⟨s', t, hrest⟩
      simp [containsFrom, ih this]

theorem strContains_of_infix (hay needle : String)
    (h : needle.data <:+: hay.data) : strContains hay needle = true :=
  containsFrom_of_infix h

theorem str_append_ne_empty (a b : String) (hb : b ≠ "") : a ++ b ≠ "" := by
  intro h
  apply hb
  have hd := congrArg String.data h
  rw [String.data_append] at hd
  have : b.data = [] := (List.append_eq_nil.mp hd).2
  exact String.ext this

theorem pyStrip_eq_empty_iff (s : String) :
    pyStrip s = "" ↔ ∀ c ∈ s.data, isPySpace c = true := by
  unfold pyStrip
  constructor
  · intro h c hc
    have hd : (((s.data.dropWhile isPySpace).reverse.dropWhile isPySpace).reverse) = [] :=
      congrArg String.data h
    rw [List.reverse_eq_nil_iff, List.dropWhile_eq_nil_iff] at hd
    have hall : ∀ x ∈ s.data.dropWhile isPySpace, isPySpace x = true := by
      intro x hx
      exact hd x (List.mem_reverse.mpr hx)
    rcases (List.mem_append.mp
        (by rw [List.takeWhile_append_dropWhile (p := isPySpace)]; exact hc :
          c ∈ s.data.takeWhile isPySpace ++ s.data.dropWhile isPySpace)) with h1 | h2
    · exact List.mem_takeWhile_imp h1
    · exact hall c h2
  · intro h
    have : s.data.dropWhile isPySpace = [] :=
      List.dropWhile_eq_nil_iff.mpr h
    rw [this]
    rfl

theorem getD_str (r : List (String × JVal)) (k : String)
    (h : strFields r = true) : ∃ s, getD r k (JVal.str "") = JVal.str s := by
  unfold getD
  cases hf : r.find? (fun kv => kv.1 == k) with
  | none => exact ⟨"", rfl⟩
  | some kv =>
    have hm := List.mem_of_find?_eq_some hf
    have hkv := (List.all_eq_true.mp h) kv hm
    cases hv : kv.2 with
    | str s => exact ⟨s, hv⟩
    | num n => rw [hv] at hkv; simp at hkv
    | bool b => rw [hv] at hkv; simp at hkv
    | null => rw [hv] at hkv; simp at hkv
    | arr xs => rw [hv] at hkv; simp at hkv
    | obj fs => rw [hv] at hkv; simp at hkv

theorem relevantByNames_ok (names : List String) (msgs : List JVal)
    (h : ∀ m ∈ msgs, wellFormed m = true) :
    ∃ l, relevantByNames names msgs = Except.ok l ∧
      ∀ m ∈ l, wellFormed m = true := by
  induction msgs with
  | nil => exact ⟨[], rfl, by simp⟩
  | cons m rest ih =>
    have hm := h m (List.mem_cons_self m rest)
    obtain ⟨l, hl, hgood⟩ := ih (fun m hm => h m (List.mem_cons_of_mem _ hm))
    cases m with
    | obj r =>
      have hr : strFields r = true := hm
      obtain ⟨u, hu⟩ := getD_str r "user_name" hr
      obtain ⟨t, ht⟩ := getD_str r "message" hr
      refine ⟨if (names.any fun n => strContains (pyLower u) (pyLower n) ||
          strContains (pyLower t) (pyLower n)) = true then JVal.obj r :: l else l,
        by simp only [relevantByNames, hu, ht, hl, Except.map], ?_⟩
      intro m hm'
      split at hm'
      · rcases List.mem_cons.mp hm' with rfl | hm''
        · exact hm
        · exact hgood m hm''
      · exact hgood m hm'
    | str s => exact ⟨l, by simp only [relevantByNames]; exact hl, hgood⟩
    | num n => exact ⟨l, by simp only [relevantByNames]; exact hl, hgood⟩
    | bool b => exact ⟨l, by simp only [relevantByNames]; exact hl, hgood⟩
    | null => exact ⟨l, by simp only [relevantByNames]; exact hl, hgood⟩
    | arr xs => exact ⟨l, by simp only [relevantByNames]; exact hl, hgood⟩

theorem tripLoop_ok (nd : String) (l : List JVal)
    (h : ∀ m ∈ l, wellFormed m = true) :
    ∃ a, tripLoop nd l = Except.ok a ∧ a ≠ "" := by
  induction l with
  | nil =>
    refine ⟨_, rfl, ?_⟩
    exact str_append_ne_empty _ _ (by decide)
  | cons m rest ih =>
    have ih' := ih (fun m hm => h m (List.mem_cons_of_mem _ hm))
    cases m with
    | obj r =>
      have hr : strFields r = true := h _ (List.mem_cons_self _ _)
      obtain ⟨s, hs⟩ := getD_str r "message" hr
      cases hc : strContains (pyLower s) "london" with
      | false =>
        obtain ⟨a, ha, hne⟩ := ih'
        exact ⟨a, by simp only [tripLoop, hs, hc]; simpa using ha, hne⟩
      | true =>
        cases hd : extractDates s with
        | cons d ds =>
          refine ⟨nd ++ " is planning a trip to London on " ++ d ++ ".",
            by simp only [tripLoop, hs, hc, hd]; simp, ?_⟩
          exact str_append_ne_empty _ _ (by decide)
        | nil =>
          obtain ⟨t, ht⟩ := getD_str r "timestamp" hr
          by_cases he : t = ""
          · refine ⟨nd ++ " has a trip to London mentioned in their messages.", ?_,
              str_append_ne_empty _ _ (by decide)⟩
            subst he
            simp only [tripLoop, hs, hc, hd, ht]
            simp [truthy]
          · refine ⟨nd ++ " has a trip to London mentioned. Message timestamp: " ++
              String.mk (t.data.take 10) ++ ".", ?_, str_append_ne_empty _ _ (by decide)⟩
            simp only [tripLoop, hs, hc, hd, ht]
            simp [truthy, he]
    | str s => exact ⟨ih'.choose, by simp only [tripLoop]; exact ih'.choose_spec.1, ih'.choose_spec.2⟩
    | num n => exact ⟨ih'.choose, by simp only [tripLoop]; exact ih'.choose_spec.1, ih'.choose_spec.2⟩
    | bool b => exact ⟨ih'.choose, by simp only [tripLoop]; exact ih'.choose_spec.1, ih'.choose_spec.2⟩
    | null => exact ⟨ih'.choose, by simp only [tripLoop]; exact ih'.choose_spec.1, ih'.choose_spec.2⟩
    | arr xs => exact ⟨ih'.choose, by simp only [tripLoop]; exact ih'.choose_spec.1, ih'.choose_spec.2⟩

theorem carLoop_ok (l : List JVal) (h : ∀ m ∈ l, wellFormed m = true) :
    ∀ k, ∃ n, carLoop k l = Except.ok n := by
  induction l with
  | nil => exact fun k => ⟨k, rfl⟩
  | cons m rest ih =>
    intro k
    have ih' := ih (fun m hm => h m (List.mem_cons_of_mem _ hm))
    cases m with
    | obj r =>
      have hr : strFields r = true := h _ (List.mem_cons_self _ _)
      obtain ⟨s, hs⟩ := getD_str r "message" hr
      cases hc : strContains (pyLower s) "car" with
      | false =>
        obtain ⟨n, hn⟩ := ih' k
        exact ⟨n, by simp only [carLoop, hs, hc]; simpa using hn⟩
      | true =>
        cases hf : findNumCar (pyLower s) with
        | nil =>
          obtain ⟨n, hn⟩ := ih' (k + 1)
          exact ⟨n, by simp only [carLoop, hs, hc, hf]; simpa using hn⟩
        | cons d ds =>
          obtain ⟨n, hn⟩ := ih' (max k (digitsToNat d))
          exact ⟨n, by simp only [carLoop, hs, hc, hf]; simpa using hn⟩
    | str s => exact (ih' k).imp fun n hn => by simp only [carLoop]; exact hn
    | num n => exact (ih' k).imp fun n hn => by simp only [carLoop]; exact hn
    | bool b => exact (ih' k).imp fun n hn => by simp only [carLoop]; exact hn
    | null => exact (ih' k).imp fun n hn => by simp only [carLoop]; exact hn
    | arr xs => exact (ih' k).imp fun n hn => by simp only [carLoop]; exact hn

theorem restaurantLoop_ok (l : List JVal) (h : ∀ m ∈ l, wellFormed m = true) :
    ∀ acc, ∃ rs, restaurantLoop acc l = Except.ok rs := by
  induction l with
  | nil => exact fun acc => ⟨acc, rfl⟩
  | cons m rest ih =>
    intro acc
    have ih' := ih (fun m hm => h m (List.mem_cons_of_mem _ hm))
    cases m with
    | obj r =>
      have hr : strFields r = true := h _ (List.mem_cons_self _ _)
      obtain ⟨s, hs⟩ := getD_str r "message" hr
      cases hc : strContains (pyLower s) "restaurant" with
      | false =>
        obtain ⟨rs, hrs⟩ := ih' acc
        exact ⟨rs, by simp only [restaurantLoop, hs, hc]; simpa using hrs⟩
      | true =>
        obtain ⟨rs, hrs⟩ := ih' (acc ++ findCapRestaurant s ++
          (findQuoted s).filter (fun q => strContains (pyLower q) "restaurant") ++
          (findCapPhrases s).filter (fun n => pySplitCount n ≤ 3))
        exact ⟨rs, by simp only [restaurantLoop, hs, hc]; simpa using hrs⟩
    | str s => exact (ih' acc).imp fun rs hrs => by simp only [restaurantLoop]; exact hrs
    | num n => exact (ih' acc).imp fun rs hrs => by simp only [restaurantLoop]; exact hrs
    | bool b => exact (ih' acc).imp fun rs hrs => by simp only [restaurantLoop]; exact hrs
    | null => exact (ih' acc).imp fun rs hrs => by simp only [restaurantLoop]; exact hrs
    | arr xs => exact (ih' acc).imp fun rs hrs => by simp only [restaurantLoop]; exact hrs

theorem answer_core (question : String) (messages : List JVal)
    (h : ∀ m ∈ messages, wellFormed m = true) :
    ∃ a, answer_question_simple question messages = Except.ok a ∧ a ≠ "" := by
  have hrel : ∃ l, (if (extractNames question).isEmpty then
        Except.ok (messages.filter isDict)
      else relevantByNames (extractNames question) messages) = Except.ok l ∧
      ∀ m ∈ l, wellFormed m = true := by
    by_cases hn : (extractNames question).isEmpty
    · refine ⟨messages.filter isDict, by rw [if_pos hn], ?_⟩
      intro m hm
      exact h m (List.mem_filter.mp hm).1
    · obtain ⟨l, hl, hgood⟩ := relevantByNames_ok (extractNames question) messages h
      exact ⟨l, by rw [if_neg hn, hl], hgood⟩
  obtain ⟨l, hl, hgood⟩ := hrel
  rw [answer_question_simple, hl]
  dsimp only []
  by_cases h1 : (strContains (pyLower question) "trip" ||
      strContains (pyLower question) "london") = true
  · rw [if_pos h1]
    exact tripLoop_ok ((extractNames question).headD "the member") l hgood
  · rw [if_neg h1]
    by_cases h2 : (strContains (pyLower question) "car" ||
        strContains (pyLower question) "cars") = true
    · rw [if_pos h2]
      obtain ⟨n, hn2⟩ := carLoop_ok l hgood 0
      rw [hn2]
      dsimp only []
      by_cases hpos : n > 0
      · rw [if_pos hpos]
        refine ⟨_, rfl, ?_⟩
        exact str_append_ne_empty _ _ (by decide)
      · rw [if_neg hpos]
        refine ⟨_, rfl, ?_⟩
        exact str_append_ne_empty _ _ (by decide)
    · rw [if_neg h2]
      by_cases h3 : (strContains (pyLower question) "restaurant" ||
          strContains (pyLower question) "favorite") = true
      · rw [if_pos h3]
        obtain ⟨rs, hrs⟩ := restaurantLoop_ok l hgood []
        rw [hrs]
        dsimp only []
        cases hre : rs.isEmpty with
        | false =>
          rw [if_pos (by decide : ((!false : Bool) = true))]
          refine ⟨_, rfl, ?_⟩
          exact str_append_ne_empty _ _ (by decide)
        | true =>
          rw [if_neg (by decide : ¬ ((!true : Bool) = true))]
          refine ⟨_, rfl, ?_⟩
          exact str_append_ne_empty _ _ (by decide)
      · rw [if_neg h3]
        cases hle : l.isEmpty with
        | false =>
          rw [if_pos (by decide : ((!false : Bool) = true))]
          refine ⟨_, rfl, ?_⟩
          exact str_append_ne_empty _ _ (by decide)
        | true =>
          rw [if_neg (by decide : ¬ ((!true : Bool) = true))]
          exact ⟨"I don't have enough information to answer that question.", rfl,
            by decide⟩

theorem char_eq_of_toNat_eq {a b : Char} (h : a.toNat = b.toNat) : a = b :=
  Char.eq_of_val_eq (UInt32.toNat.inj h)

theorem lexLe_total (a b : List Char) : lexLe a b = true ∨ lexLe b a = true := by
  induction a generalizing b with
  | nil => exact Or.inl rfl
  | cons c cs ih =>
    cases b with
    | nil => exact Or.inr rfl
    | cons d ds =>
      by_cases hcd : c = d
      · subst hcd
        rcases ih ds with h | h
        · exact Or.inl (by simp [lexLe, h])
        · exact Or.inr (by simp [lexLe, h])
      · have hbeq : (c == d) = false := by
          simpa using hcd
        have hbeq' : (d == c) = false := by
          simpa using fun hdc => hcd hdc.symm
        rcases Nat.lt_trichotomy c.toNat d.toNat with h | h | h
        · exact Or.inl (by simp [lexLe, hbeq, h])
        · exact absurd (char_eq_of_toNat_eq h) hcd
        · exact Or.inr (by simp [lexLe, hbeq', h])

theorem lexLe_trans {a b c : List Char} (h1 : lexLe a b = true)
    (h2 : lexLe b c = true) : lexLe a c = true := by
  induction a generalizing b c with
  | nil => rfl
  | cons x xs ih =>
    cases b with
    | nil => simp [lexLe] at h1
    | cons y ys =>
      cases c with
      | nil => simp [lexLe] at h2
      | cons z zs =>
        by_cases hxy : x = y
        · subst hxy
          rw [lexLe, if_pos (by simp)] at h1
          by_cases hyz : x = z
          · subst hyz
            rw [lexLe, if_pos (by simp)] at h2
            rw [lexLe, if_pos (by simp)]
            exact ih h1 h2
          · rw [lexLe, if_neg (by simpa using hyz)] at h2 ⊢
            exact h2
        · rw [lexLe, if_neg (by simpa using hxy)] at h1
          have hlt1 : x.toNat < y.toNat := by simpa using h1
          by_cases hyz : y = z
          · subst hyz
            rw [lexLe, if_neg (by simpa using hxy)]
            simpa using hlt1
          · rw [lexLe, if_neg (by simpa using hyz)] at h2
            have hlt2 : y.toNat < z.toNat := by simpa using h2
            have hlt : x.toNat < z.toNat := hlt1.trans hlt2
            have hxz : x ≠ z := fun he => absurd (he ▸ hlt) (by simp)
            rw [lexLe, if_neg (by simpa using hxz)]
            simpa using hlt

theorem lexLe_antisymm {a b : List Char} (h1 : lexLe a b = true)
    (h2 : lexLe b a = true) : a = b := by
  induction a generalizing b with
  | nil =>
    cases b with
    | nil => rfl
    | cons d ds => simp [lexLe] at h2
  | cons c cs ih =>
    cases b with
    | nil => simp [lexLe] at h1
    | cons d ds =>
      by_cases hcd : c = d
      · subst hcd
        rw [lexLe, if_pos (by simp)] at h1 h2
        rw [ih h1 h2]
      · rw [lexLe, if_neg (by simpa using hcd)] at h1
        have hdc : ¬ d = c := fun h => hcd h.symm
        rw [lexLe, if_neg (by simpa using hdc)] at h2
        have hlt1 : c.toNat < d.toNat := by simpa using h1
        have hlt2 : d.toNat < c.toNat := by simpa using h2
        exact absurd (hlt1.trans hlt2) (by simp)

theorem keyLe_total (a b : String × String) : keyLe a b = true ∨ keyLe b a = true :=
  lexLe_total a.1.data b.1.data

theorem keyLe_key_eq {a b : String × String} (h1 : keyLe a b = true)
    (h2 : keyLe b a = true) : a.1 = b.1 :=
  String.ext (lexLe_antisymm h1 h2)

theorem insertSorted_perm (kv : String × String) (l : List (String × String)) :
    (insertSorted kv l).Perm (kv :: l) := by
  induction l with
  | nil => exact List.Perm.refl _
  | cons p rest ih =>
    rw [insertSorted]
    by_cases hk : keyLe kv p = true
    · rw [if_pos hk]
    · rw [if_neg hk]
      exact (ih.cons p).trans (List.Perm.swap kv p rest)

theorem insertSorted_sorted (kv : String × String) (l : List (String × String))
    (h : l.Pairwise (fun a b => keyLe a b = true)) :
    (insertSorted kv l).Pairwise (fun a b => keyLe a b = true) := by
  induction l with
  | nil => exact List.pairwise_singleton _ _
  | cons p rest ih =>
    rw [insertSorted]
    by_cases hk : keyLe kv p = true
    · rw [if_pos hk]
      refine List.Pairwise.cons ?_ h
      intro x hx
      rcases List.mem_cons.mp hx with rfl | hx'
      · exact hk
      · exact lexLe_trans hk ((List.pairwise_cons.mp h).1 x hx')
    · rw [if_neg hk]
      refine List.Pairwise.cons ?_ (ih (List.pairwise_cons.mp h).2)
      intro x hx
      rcases List.mem_cons.mp ((insertSorted_perm kv rest).mem_iff.mp hx) with rfl | hx'
      · rcases keyLe_total p x with hp | hp
        · exact hp
        · exact absurd hp hk
      · exact (List.pairwise_cons.mp h).1 x hx'

theorem sortFields_perm (l : List (String × String)) : (sortFields l).Perm l := by
  induction l with
  | nil => exact List.Perm.refl _
  | cons kv rest ih =>
    rw [sortFields]
    exact (insertSorted_perm kv (sortFields rest)).trans (ih.cons kv)

theorem sortFields_sorted (l : List (String × String)) :
    (sortFields l).Pairwise (fun a b => keyLe a b = true) := by
  induction l with
  | nil => exact List.Pairwise.nil
  | cons kv rest ih => exact insertSorted_sorted kv (sortFields rest) ih

theorem sorted_perm_nodup_keys_eq :
    ∀ {l1 l2 : List (String × String)}, l1.Perm l2 →
      l1.Pairwise (fun a b => keyLe a b = true) →
      l2.Pairwise (fun a b => keyLe a b = true) →
      (l1.map Prod.fst).Nodup → l1 = l2 := by
  intro l1
  induction l1 with
  | nil =>
    intro l2 hp _ _ _
    exact (hp.symm.eq_nil).symm
  | cons a t ih =>
    intro l2 hp hs1 hs2 hn
    cases l2 with
    | nil => exact absurd hp.eq_nil (by simp)
    | cons b t2 =>
      rcases List.mem_cons.mp (hp.subset (List.mem_cons_self a t)) with heq | hmem
      · subst heq
        rw [List.map_cons] at hn
        rw [ih hp.cons_inv (List.pairwise_cons.mp hs1).2
          (List.pairwise_cons.mp hs2).2 (List.nodup_cons.mp hn).2]
      · rcases List.mem_cons.mp (hp.symm.subset (List.mem_cons_self b t2)) with heq2 | hmem2
        · subst heq2
          rw [List.map_cons] at hn
          rw [ih hp.cons_inv (List.pairwise_cons.mp hs1).2
            (List.pairwise_cons.mp hs2).2 (List.nodup_cons.mp hn).2]
        · have h1 : keyLe a b = true := (List.pairwise_cons.mp hs1).1 b hmem2
          have h2 : keyLe b a = true := (List.pairwise_cons.mp hs2).1 a hmem
          have hkey : a.1 ∈ t.map Prod.fst :=
            List.mem_map.mpr ⟨b, hmem2, (keyLe_key_eq h1 h2).symm⟩
          rw [List.map_cons] at hn
          exact absurd hkey (List.nodup_cons.mp hn).1

theorem dumpsFields_eq_map (l : List (String × JVal)) :
    dumpsFields l = l.map fun kv => (kv.1, dumps kv.2) := by
  induction l with
  | nil => rfl
  | cons kv rest ih => rw [dumpsFields, ih]; rfl

theorem dumps_obj_perm (r1 r2 : List (String × JVal)) (hp : r1.Perm r2)
    (hn : (r1.map Prod.fst).Nodup) :
    dumps (JVal.obj r1) = dumps (JVal.obj r2) := by
  have hdf : (dumpsFields r1).Perm (dumpsFields r2) := by
    rw [dumpsFields_eq_map, dumpsFields_eq_map]
    exact hp.map _
  have hperm : (sortFields (dumpsFields r1)).Perm (sortFields (dumpsFields r2)) :=
    (sortFields_perm _).trans (hdf.trans (sortFields_perm _).symm)
  have hmapeq : (dumpsFields r1).map Prod.fst = r1.map Prod.fst := by
    rw [dumpsFields_eq_map, List.map_map]
    rfl
  have hkeys : ((sortFields (dumpsFields r1)).map Prod.fst).Nodup :=
    (((sortFields_perm (dumpsFields r1)).map Prod.fst).symm).nodup
      (by rw [hmapeq]; exact hn)
  have heq := sorted_perm_nodup_keys_eq hperm (sortFields_sorted _)
    (sortFields_sorted _) hkeys
  simp only [dumps]
  rw [heq]

/-- C9: duplicate counting is invariant under record key order and input
order.  Two structurally identical mapping records (the same key-value pairs
in any key order, with no repeated key) have equal canonical serializations
wherever they sit in the input, and when every other record's serialization
is distinct the reported duplicate count is exactly 1. -/
theorem C9_duplicate_pair_counted_once (xs ys zs : List JVal) (r1 r2 : List (String × JVal))
    (hp : r1.Perm r2) (hn : (r1.map Prod.fst).Nodup)
    (hdist : ((xs ++ ys ++ zs).map dumps).Nodup)
    (hfresh : dumps (JVal.obj r1) ∉ (xs ++ ys ++ zs).map dumps) :
    dumps (JVal.obj r1) = dumps (JVal.obj r2) ∧
    duplicateCount (xs ++ JVal.obj r1 :: ys ++ JVal.obj r2 :: zs) = 1 := by
  have he := dumps_obj_perm r1 r2 hp hn
  refine ⟨he, ?_⟩
  have hrest : ((xs ++ ys ++ zs).map dumps) =
      xs.map dumps ++ ys.map dumps ++ zs.map dumps := by
    simp [List.map_append]
  rw [hrest] at hdist hfresh
  have hmap : (xs ++ JVal.obj r1 :: ys ++ JVal.obj r2 :: zs).map dumps =
      xs.map dumps ++ dumps (JVal.obj r1) ::
        (ys.map dumps ++ dumps (JVal.obj r1) :: zs.map dumps) := by
    simp [List.map_append, ← he]
  have hperm : (xs.map dumps ++ dumps (JVal.obj r1) ::
      (ys.map dumps ++ dumps (JVal.obj r1) :: zs.map dumps)).Perm
      (dumps (JVal.obj r1) :: dumps (JVal.obj r1) ::
        (xs.map dumps ++ ys.map dumps ++ zs.map dumps)) := by
    refine List.Perm.trans List.perm_middle ?_
    refine List.Perm.cons _ ?_
    have hassoc : xs.map dumps ++ (ys.map dumps ++ dumps (JVal.obj r1) :: zs.map dumps) =
        (xs.map dumps ++ ys.map dumps) ++ dumps (JVal.obj r1) :: zs.map dumps := by
      rw [List.append_assoc]
    rw [hassoc]
    exact List.perm_middle
  have hded := hperm.dedup
  rw [List.dedup_cons_of_mem (List.mem_cons_self _ _),
    List.dedup_cons_of_not_mem hfresh, List.Nodup.dedup hdist] at hded
  have hlen := hded.length_eq
  rw [duplicateCount, hmap, hlen]
  simp only [List.length_append, List.length_cons, List.length_map]
  omega

/-- C6: a request whose question is empty or whitespace-only is rejected by
`/ask` with the 400 empty-question error before any fetching (the rejection
holds for every fetch outcome, including a failed fetch), and a question
containing any non-whitespace character is never rejected that way. -/
theorem C6_blank_question_rejected (q : String) :
    ((∀ c ∈ q.data, isPySpace c = true) →
      ∀ fetch, ask_question q fetch = AskResult.emptyQuestion) ∧
    ((∃ c ∈ q.data, isPySpace c = false) →
      ∀ fetch, ask_question q fetch ≠ AskResult.emptyQuestion) := by
  constructor
  · intro hws fetch
    have h0 : pyStrip q = "" := (pyStrip_eq_empty_iff q).mpr hws
    simp [ask_question, h0]
  · rintro ⟨c, hc, hcs⟩ fetch
    have hne : pyStrip q ≠ "" := by
      intro h
      have := (pyStrip_eq_empty_iff q).mp h c hc
      rw [hcs] at this
      exact absurd this (by decide)
    have hq : q ≠ "" := by
      intro h
      subst h
      simp at hc
    have hcond : ¬ ((q == "" || pyStrip q == "") = true) := by
      simp [hq, hne]
    unfold ask_question
    rw [if_neg hcond]
    cases fetch with
    | error e => simp
    | ok msgs =>
      by_cases hm : msgs.isEmpty
      · simp [hm]
      · simp only [hm]
        split
        · simp
        · cases h : answer_question_simple q msgs with
          | ok a => simp [h]
          | error e => simp [h]

/-- The trip loop on a relevant list whose first London-mentioning message
is the dated body: the answer succeeds and quotes `2024-03-15` verbatim. -/
theorem tripLoop_london_date (nd : String) (pre post : List JVal)
    (r : List (String × JVal))
    (hpre : ∀ m ∈ pre, notLondonMsg m = true)
    (hmsg : getD r "message" (JVal.str "") =
      JVal.str "Planning a trip to London on 2024-03-15") :
    ∃ a, tripLoop nd (pre ++ JVal.obj r :: post) = Except.ok a ∧
      strContains a "2024-03-15" = true := by
  induction pre with
  | nil =>
    rw [List.nil_append]
    have hc : strContains (pyLower "Planning a trip to London on 2024-03-15")
        "london" = true := by decide
    have hd : extractDates "Planning a trip to London on 2024-03-15" =
        ["2024-03-15"] := by decide
    refine ⟨nd ++ " is planning a trip to London on " ++ "2024-03-15" ++ ".", ?_, ?_⟩
    · simp only [tripLoop, hmsg, hd]
      rw [if_pos hc]
    · apply strContains_of_infix
      refine ⟨(nd ++ " is planning a trip to London on ").data, ".".data, ?_⟩
      simp [String.data_append, List.append_assoc]
  | cons m pre ih =>
    have hm := hpre m (List.mem_cons_self _ _)
    have ih' := ih (fun x hx => hpre x (List.mem_cons_of_mem _ hx))
    cases m with
    | obj r2 =>
      cases hg : getD r2 "message" (JVal.str "") with
      | str s =>
        have hms : strContains (pyLower s) "london" = false := by
          simp only [notLondonMsg, hg] at hm
          simpa using hm
        rw [List.cons_append]
        simp only [tripLoop, hg]
        rw [if_neg (by rw [hms]; exact Bool.false_ne_true)]
        exact ih'
      | num n =>
        simp only [notLondonMsg, hg] at hm
        exact absurd hm Bool.false_ne_true
      | bool b =>
        simp only [notLondonMsg, hg] at hm
        exact absurd hm Bool.false_ne_true
      | null =>
        simp only [notLondonMsg, hg] at hm
        exact absurd hm Bool.false_ne_true
      | arr xs =>
        simp only [notLondonMsg, hg] at hm
        exact absurd hm Bool.false_ne_true
      | obj fs =>
        simp only [notLondonMsg, hg] at hm
        exact absurd hm Bool.false_ne_true
    | str s =>
      rw [List.cons_append]
      simp only [tripLoop]
      exact ih'
    | num n =>
      rw [List.cons_append]
      simp only [tripLoop]
      exact ih'
    | bool b =>
      rw [List.cons_append]
      simp only [tripLoop]
      exact ih'
    | null =>
      rw [List.cons_append]
      simp only [tripLoop]
      exact ih'
    | arr xs =>
      rw [List.cons_append]
      simp only [tripLoop]
      exact ih'

/-- C1: for every non-empty question and every message list whose mapping
entries carry only string-valued fields, `answer_question_simple` returns an
answer (it raises no exception) and that answer is a non-empty sentence:
extraction failure produces a couldn't-find or generic fallback sentence. -/
theorem C1_answer_always_nonempty (question : String) (messages : List JVal)
    (_hq : question ≠ "")
    (h : ∀ m ∈ messages, wellFormed m = true) :
    ∃ a, answer_question_simple question messages = Except.ok a ∧ a ≠ "" :=
  answer_core question messages h

/-- C1, witness: a concrete non-empty question over an empty message list. -/
theorem C1_answer_always_nonempty_witness :
    ∃ a, answer_question_simple "Hi" [] = Except.ok a ∧ a ≠ "" :=
  C1_answer_always_nonempty "Hi" [] (by decide) (by simp)

/-- C2, counterexample: with the numbered message first, the car count is
not 2: the bare `car` mention afterwards increments past the maximum, so the
answer reports 3. -/
theorem C2_car_count_cex :
    answer_question_simple "How many cars does Vikram have?"
      [JVal.obj [("user_name", JVal.str "Vikram"),
                 ("message", JVal.str "I have 2 cars")],
       JVal.obj [("user_name", JVal.str "Vikram"),
                 ("message", JVal.str "car")]] =
      Except.ok "Vikram has 3 car(s) mentioned in the data." ∧
    "Vikram has 3 car(s) mentioned in the data." ≠
      "Vikram has 2 car(s) mentioned in the data." :=
  ⟨rfl, by decide⟩

/-- C2, amended: the answer reports 2 when the bare `car` message precedes
the `I have 2 cars` message — the maximum rule applies an explicit number
against the count accumulated so far, while a later bare mention still
increments the count by one (so the opposite order reports 3). -/
theorem C2_car_count_amended :
    answer_question_simple "How many cars does Vikram have?"
      [JVal.obj [("user_name", JVal.str "Vikram"),
                 ("message", JVal.str "car")],
       JVal.obj [("user_name", JVal.str "Vikram"),
                 ("message", JVal.str "I have 2 cars")]] =
      Except.ok "Vikram has 2 car(s) mentioned in the data." := rfl

/-- C3, counterexample: subject extraction on the trip question does not
return `["Layla"]`. -/
theorem C3_subject_cex :
    extractNames "When is Layla planning her trip to London?" ≠ ["Layla"] := by
  decide

/-- C3, amended: subject extraction on the trip question returns
`["Layla", "London"]`: the stoplist removes `When`, but `London` also
matches the capitalized-name pattern and is not a stoplist word, so it
survives alongside `Layla`. -/
theorem C3_subject_amended :
    extractNames "When is Layla planning her trip to London?" =
      ["Layla", "London"] := by
  decide

/-- C4: `analyze_data` on a list containing a non-mapping entry does record
the entry as an anomaly in its first scan loop, but it does not complete:
the empty-value loop calls `.items()` on the entry without an `isinstance`
guard and raises `AttributeError`, losing the findings. -/
theorem C4_analyze_nonmapping_raises :
    analyze_data [JVal.num 42] = Except.error PyErr.attributeError ∧
    (scanMsgs 0 ⟨[], [], [], [], 0⟩ [JVal.num 42]).anomalies =
      [Anomaly.notADict 0 "int"] :=
  ⟨rfl, rfl⟩

/-- C5, counterexample: a mapping record whose `user_name` holds a number
makes `answer_question_simple` raise `AttributeError` (from `.lower()` on a
non-string) instead of returning an answer. -/
theorem C5_nonstring_field_raises_cex :
    answer_question_simple "When is Layla planning her trip to London?"
      [JVal.obj [("user_name", JVal.num 5)]] =
      Except.error PyErr.attributeError := rfl

/-- C5, amended: absent fields are tolerated — for every question and every
message list whose mapping entries carry only string-valued fields (fields
may freely be absent, `get` supplies an empty-string default),
`answer_question_simple` returns an answer rather than raising; but a
non-string field value can raise, per the counterexample. -/
theorem C5_absent_fields_tolerated (question : String) (messages : List JVal)
    (h : ∀ m ∈ messages, wellFormed m = true) :
    ∃ a, answer_question_simple question messages = Except.ok a :=
  (answer_core question messages h).imp fun _ ha => ha.1

/-- C5, witness: a record with both `user_name` and `message` absent is
tolerated. -/
theorem C5_absent_fields_tolerated_witness :
    ∃ a, answer_question_simple "When is Layla planning her trip to London?"
      [JVal.obj [("timestamp", JVal.str "2024-01-01T00:00:00")]] =
      Except.ok a :=
  C5_absent_fields_tolerated _ _ (by decide)

/-- C6, witness: a whitespace-only question is rejected for every fetch
outcome, and a non-blank question is not rejected as empty. -/
theorem C6_blank_question_rejected_witness :
    (∀ fetch, ask_question "   " fetch = AskResult.emptyQuestion) ∧
    ask_question "hi" (Except.ok []) ≠ AskResult.emptyQuestion :=
  ⟨(C6_blank_question_rejected "   ").1 (by decide),
   (C6_blank_question_rejected "hi").2 (by decide) (Except.ok [])⟩

/-- C7: for a trip/London question, when the relevance filter (with or
without candidate names) returns a list whose first London-mentioning message
has body `"Planning a trip to London on 2024-03-15"` (every earlier
relevant message being a non-mapping or a string-bodied message not
mentioning London), the returned answer contains the literal substring
`2024-03-15`: the first matched date fragment is quoted verbatim, not
normalized. -/
theorem C7_trip_answer_quotes_date (question : String)
    (messages pre post : List JVal) (r : List (String × JVal))
    (htrig : (strContains (pyLower question) "trip" ||
      strContains (pyLower question) "london") = true)
    (hrel : (if (extractNames question).isEmpty then
        Except.ok (messages.filter isDict)
      else relevantByNames (extractNames question) messages) =
      Except.ok (pre ++ JVal.obj r :: post))
    (hpre : ∀ m ∈ pre, notLondonMsg m = true)
    (hmsg : getD r "message" (JVal.str "") =
      JVal.str "Planning a trip to London on 2024-03-15") :
    ∃ a, answer_question_simple question messages = Except.ok a ∧
      strContains a "2024-03-15" = true := by
  rw [answer_question_simple, hrel]
  dsimp only []
  rw [if_pos htrig]
  exact tripLoop_london_date _ pre post r hpre hmsg

/-- C7, witness: a Layla question over the single dated London message
produces an answer containing `2024-03-15`. -/
theorem C7_trip_answer_quotes_date_witness :
    ∃ a, answer_question_simple "When is Layla planning her trip to London?"
      [JVal.obj [("user_name", JVal.str "Layla"),
                 ("message", JVal.str "Planning a trip to London on 2024-03-15")]] =
      Except.ok a ∧ strContains a "2024-03-15" = true :=
  C7_trip_answer_quotes_date "When is Layla planning her trip to London?"
    [JVal.obj [("user_name", JVal.str "Layla"),
               ("message", JVal.str "Planning a trip to London on 2024-03-15")]]
    [] []
    [("user_name", JVal.str "Layla"),
     ("message", JVal.str "Planning a trip to London on 2024-03-15")]
    (by decide) rfl (by simp) rfl

/-- C8: the low-presence inconsistency fires exactly when the field's count
over the total is strictly below one half as an exact rational comparison
(stated for the positive totals the source can produce); concretely, a field
present in 2 of 5 records (40%) is flagged and one present in 3 of 5
records (60%) is not. -/
theorem C8_presence_threshold :
    (∀ c n : Nat, 0 < n →
      (presenceFlagged c n = true ↔ (c : ℚ) / (n : ℚ) < 1 / 2)) ∧
    lowPresenceFlaggedIn msgsForty "extra" = true ∧
    lowPresenceFlaggedIn msgsSixty "extra" = false := by
  refine ⟨?_, by decide, by decide⟩
  intro c n hn
  rw [presenceFlagged, decide_eq_true_iff]
  have hn' : (0 : ℚ) < (n : ℚ) := by exact_mod_cast hn
  rw [div_lt_div_iff₀ hn' (by norm_num : (0 : ℚ) < 2)]
  constructor
  · intro h
    have h' : ((2 * c : Nat) : ℚ) < (n : ℚ) := by exact_mod_cast h
    push_cast at h'
    linarith
  · intro h
    have h' : ((2 * c : Nat) : ℚ) < (n : ℚ) := by push_cast; linarith
    exact_mod_cast h'

/-- C8, witness: the exact-rational characterization applied at 2 of 5. -/
theorem C8_presence_threshold_witness : presenceFlagged 2 5 = true :=
  (C8_presence_threshold.1 2 5 (by norm_num)).mpr (by norm_num)

/-- C9, witness: a concrete key-permuted pair among one other record. -/
theorem C9_duplicate_pair_counted_once_witness :
    dumps (JVal.obj [("a", JVal.str "1"), ("b", JVal.str "2")]) =
      dumps (JVal.obj [("b", JVal.str "2"), ("a", JVal.str "1")]) ∧
    duplicateCount ([] ++ JVal.obj [("a", JVal.str "1"), ("b", JVal.str "2")] ::
      [JVal.obj [("c", JVal.str "3")]] ++
        JVal.obj [("b", JVal.str "2"), ("a", JVal.str "1")] :: []) = 1 :=
  C9_duplicate_pair_counted_once [] [JVal.obj [("c", JVal.str "3")]] []
    [("a", JVal.str "1"), ("b", JVal.str "2")]
    [("b", JVal.str "2"), ("a", JVal.str "1")]
    (List.Perm.swap _ _ _) (by decide) (by decide) (by decide)

/-- C10: a relevant message whose body contains `car` only inside the longer
word `carpet` still counts as a car mention — the reported count for this
single message is 1, even though no number precedes `car` and the body has
no `car` word. -/
theorem C10_car_substring_carpet :
    answer_question_simple "How many cars does Vikram have?"
      [JVal.obj [("user_name", JVal.str "Vikram"),
                 ("message", JVal.str "I bought a new carpet")]] =
      Except.ok "Vikram has 1 car(s) mentioned in the data." ∧
    strContains (pyLower "I bought a new carpet") "car" = true ∧
    findNumCar (pyLower "I bought a new carpet") = [] :=
  ⟨rfl, by decide, by decide⟩
